import Mathlib

/-!
Shallow embedding of the WhatsApp Vision API image-analysis pipeline
(src/app.py).  Text is modelled as lists of Unicode code points
(`List Nat`); ASCII case mapping models Python's per-character
str.lower / str.upper on the ASCII texts the pipeline manipulates.
Pixels are `Nat` triples; the captioning model, base64 decoding and
image decoding are external collaborators and appear as function
parameters.
-/

/-- Code-point model of strings: a string is its list of code points. -/
def str (s : String) : List Nat := s.data.map Char.toNat

/-- ASCII lower-casing of one code point (Python str.lower, per character). -/
def asciiLower (c : Nat) : Nat := if 65 ≤ c ∧ c ≤ 90 then c + 32 else c

/-- ASCII upper-casing of one code point. -/
def asciiUpper (c : Nat) : Nat := if 97 ≤ c ∧ c ≤ 122 then c - 32 else c

/-- Python str.capitalize: first character upper-cased, the rest lower-cased. -/
def pyCapitalize : List Nat → List Nat
  | [] => []
  | c :: rest => asciiUpper c :: rest.map asciiLower

/-- Capitalization that touches only the first character (the spec's wording
of the final step of the translator). -/
def capitalizeFirst : List Nat → List Nat
  | [] => []
  | c :: rest => asciiUpper c :: rest

/-- Boolean list-prefix test on code-point lists. -/
def isPrefixOfL : List Nat → List Nat → Bool
  | [], _ => true
  | _ :: _, [] => false
  | a :: as, b :: bs => a == b && isPrefixOfL as bs

/-- Boolean substring test (Python `needle in haystack`). -/
def isSubstring (needle : List Nat) : List Nat → Bool
  | [] => isPrefixOfL needle []
  | c :: rest => isPrefixOfL needle (c :: rest) || isSubstring needle rest

/-- Fuel-driven scan of Python str.replace (global, left-to-right,
non-overlapping).  Each step consumes at least one character and one unit of
fuel, so with fuel = length of the scanned text the fuel never runs out. -/
def replaceAllFuel (old new : List Nat) : Nat → List Nat → List Nat
  | _, [] => []
  | 0, l => l
  | fuel + 1, c :: rest =>
    if old ≠ [] ∧ isPrefixOfL old (c :: rest) = true then
      new ++ replaceAllFuel old new fuel ((c :: rest).drop old.length)
    else
      c :: replaceAllFuel old new fuel rest

/-- Python str.replace: global, left-to-right, non-overlapping substring
replacement.  Every pattern used by the source's table is nonempty; an empty
pattern is treated as a no-op here. -/
def replaceAll (old new : List Nat) (l : List Nat) : List Nat :=
  replaceAllFuel old new l.length l

/-- The fixed English→French substitution table of translate_to_french,
in source order. -/
def translations : List (List Nat × List Nat) :=
  [ (str "a photo of", str "une photo de"),
    (str "an image of", str "une image de"),
    (str "person", str "personne"),
    (str "people", str "personnes"),
    (str "man", str "homme"),
    (str "woman", str "femme"),
    (str "car", str "voiture"),
    (str "dog", str "chien"),
    (str "cat", str "chat"),
    (str "food", str "nourriture"),
    (str "building", str "bâtiment"),
    (str "street", str "rue"),
    (str "tree", str "arbre"),
    (str "sky", str "ciel"),
    (str "water", str "eau"),
    (str "sitting", str "assis"),
    (str "standing", str "debout"),
    (str "walking", str "marchant"),
    (str "on", str "sur"),
    (str "in", str "dans"),
    (str "with", str "avec"),
    (str "and", str "et"),
    (str "the", str "le/la"),
    (str "a", str "un/une") ]

/-- translate_to_french: lower-case the input, apply the table in order on
the progressively mutated string, then Python-capitalize the result. -/
def translate_to_french (text : List Nat) : List Nat :=
  pyCapitalize (translations.foldl (fun result p => replaceAll p.1 p.2 result) (text.map asciiLower))

/-- Does any table pattern occur in the given (already lower-cased) text? -/
def tableMatches (l : List Nat) : Bool :=
  translations.any (fun p => isSubstring p.1 l)

/-- One invocation of the captioning model: optional text prompt and the
generation keyword arguments.  num_beams is `none` when the source call
leaves the library default in place. -/
structure GenCall where
  prompt : Option (List Nat)
  max_length : Nat
  num_beams : Option Nat

/-- Tail of generate_description: translate exactly when the requested
language is fr, otherwise pass the English text through. -/
def apply_language (language : String) (description_en : List Nat) : List Nat :=
  if language == "fr" then translate_to_french description_en else description_en

/-- generate_description: a detail-level-specific model invocation followed
by the conditional translation. -/
def generate_description (model : GenCall → List Nat)
    (language detail_level : String) : List Nat :=
  let description_en :=
    if detail_level == "detailed" then
      model { prompt := some (str "a photography of"), max_length := 100, num_beams := some 5 }
    else
      model { prompt := none, max_length := 50, num_beams := some 3 }
  apply_language language description_en

/-- The model call made by detect_objects: the fixed question prompt,
max_length 30, default beam width. -/
def objectsCall : GenCall :=
  { prompt := some (str "What objects are in this image?"), max_length := 30, num_beams := none }

/-- The fixed tag vocabulary, in order. -/
def common_objects : List String :=
  ["person", "car", "animal", "food", "building", "nature", "object"]

/-- detect_objects: keyword presence of each vocabulary entry in the
lower-cased decoded model text; the French sentinel when nothing matches. -/
def detect_objects (model : GenCall → List Nat) : List String :=
  let objects_text := model objectsCall
  let detected := common_objects.filter
    (fun obj => isSubstring (str obj) (objects_text.map asciiLower))
  if detected = [] then ["objet non identifié"] else detected

/-- The six color buckets of analyze_colors. -/
inductive ColorBucket
  | red
  | green
  | blue
  | white
  | black
  | mixed
deriving DecidableEq

/-- The French string the source uses for each bucket. -/
def ColorBucket.toFrench : ColorBucket → String
  | .red => "rouge"
  | .green => "vert"
  | .blue => "bleu"
  | .white => "blanc"
  | .black => "noir"
  | .mixed => "mixte"

/-- An RGB pixel. -/
abbrev Pixel := Nat × Nat × Nat

/-- Per-pixel bucket classification, in the source's precedence order. -/
def classifyPixel : Pixel → ColorBucket
  | (r, g, b) =>
    if r > g ∧ r > b then .red
    else if g > r ∧ g > b then .green
    else if b > r ∧ b > g then .blue
    else if r > 200 ∧ g > 200 ∧ b > 200 then .white
    else if r < 50 ∧ g < 50 ∧ b < 50 then .black
    else .mixed

/-- Entry of the insertion-ordered count dictionary. -/
abbrev ColorCount := ColorBucket × Nat

/-- One dictionary update, on an insertion-ordered association list:
color_counts[color] = color_counts.get(color, 0) + 1. -/
def bump (counts : List ColorCount) (c : ColorBucket) : List ColorCount :=
  if counts.any (fun p => p.1 = c) then
    counts.map (fun p => if p.1 = c then (p.1, p.2 + 1) else p)
  else
    counts ++ [(c, 1)]

/-- The counting loop of analyze_colors over the classified pixels. -/
def tally (bs : List ColorBucket) : List ColorCount :=
  bs.foldl bump []

/-- Stable insertion of one entry into a count-descending list: equal counts
keep the earlier entry first. -/
def insertByCountDesc (x : ColorCount) : List ColorCount → List ColorCount
  | [] => [x]
  | y :: ys => if x.2 < y.2 then y :: insertByCountDesc x ys else x :: y :: ys

/-- Stable sort by count, descending: Python sorted(key, reverse=True). -/
def sortByCountDesc : List ColorCount → List ColorCount
  | [] => []
  | x :: xs => insertByCountDesc x (sortByCountDesc xs)

/-- analyze_colors, acting on the row-major pixel data of the 150x150
resized image (the resize itself is the external imaging library). -/
def analyze_colors (pixels : List Pixel) : List ColorBucket :=
  ((sortByCountDesc (tally (pixels.map classifyPixel))).take 3).map Prod.fst

/-- Index of the first occurrence of a bucket in a scan (= length if absent). -/
def firstIdx (c : ColorBucket) : List ColorBucket → Nat
  | [] => 0
  | b :: rest => if b = c then 0 else firstIdx c rest + 1

/-- Number of scan entries equal to a bucket. -/
def countBucket (c : ColorBucket) : List ColorBucket → Nat
  | [] => 0
  | b :: rest => (if b = c then 1 else 0) + countBucket c rest

/-- A parsed /analyze request body (each JSON field may be absent). -/
structure AnalyzeRequest where
  image : Option String
  language : Option String
  detail_level : Option String

/-- Outcome of /analyze: a JSON error body with its HTTP status, or the
success body. -/
inductive AnalyzeResponse where
  | failure (error : String) (status : Nat)
  | ok (description : List Nat) (objects : List String) (colors : List String)
      (image_size : Nat × Nat) (status : Nat)
deriving DecidableEq

/-- HTTP 4xx test. -/
def isClientError (status : Nat) : Bool := 400 ≤ status && status < 500

/-- The /analyze endpoint.  base64 decoding, image decoding and the
captioning model are external collaborators passed as functions; a raised
exception is modelled by the Except error branch, which the source's catch-all
turns into a 500 response. -/
def analyze_image {Bytes Img : Type}
    (b64decode : String → Except String Bytes)
    (image_open : Bytes → Except String Img)
    (model : Img → GenCall → List Nat)
    (resized_pixels : Img → List Pixel)
    (image_size : Img → Nat × Nat)
    (req : AnalyzeRequest) : AnalyzeResponse :=
  match req.image with
  | none => .failure "Aucune image fournie" 400
  | some b64 =>
    match b64decode b64 with
    | .error e => .failure e 500
    | .ok bytes =>
      match image_open bytes with
      | .error e => .failure e 500
      | .ok image =>
        let language := (req.language).getD "fr"
        let detail_level := (req.detail_level).getD "normal"
        let description := generate_description (model image) language detail_level
        let objects := detect_objects (model image)
        let colors := (analyze_colors (resized_pixels image)).map ColorBucket.toFrench
        .ok description objects colors (image_size image) 200

/-- The translation algorithm as the specification words it (claim C4):
lower-case the input, apply the table substitutions in order on the
progressively mutated string, then capitalize only the first character. -/
def translateClaim (text : List Nat) : List Nat :=
  capitalizeFirst
    (translations.foldl (fun result p => replaceAll p.1 p.2 result) (text.map asciiLower))

/-! ### Case-mapping lemmas -/

lemma asciiLower_idem (c : Nat) : asciiLower (asciiLower c) = asciiLower c := by
  unfold asciiLower; split_ifs <;> omega

lemma asciiLower_asciiUpper (c : Nat) : asciiLower (asciiUpper c) = asciiLower c := by
  unfold asciiLower asciiUpper; split_ifs <;> omega

lemma asciiLower_not_upper (c : Nat) : ¬(65 ≤ asciiLower c ∧ asciiLower c ≤ 90) := by
  unfold asciiLower; split_ifs <;> omega

/-! ### replaceAll lemmas -/

lemma replaceAllFuel_succ_cons (old new : List Nat) (n c : Nat) (rest : List Nat) :
    replaceAllFuel old new (n + 1) (c :: rest) =
      if old ≠ [] ∧ isPrefixOfL old (c :: rest) = true then
        new ++ replaceAllFuel old new n ((c :: rest).drop old.length)
      else
        c :: replaceAllFuel old new n rest := rfl

lemma mem_replaceAllFuel (old new : List Nat) :
    ∀ (fuel : Nat) (l : List Nat), ∀ x ∈ replaceAllFuel old new fuel l, x ∈ new ∨ x ∈ l := by
  intro fuel
  induction fuel with
  | zero =>
    intro l x hx
    cases l with
    | nil => exact absurd hx (List.not_mem_nil x)
    | cons c rest => exact Or.inr hx
  | succ n ih =>
    intro l x hx
    cases l with
    | nil => exact absurd hx (List.not_mem_nil x)
    | cons c rest =>
      rw [replaceAllFuel_succ_cons] at hx
      split at hx
      · rcases List.mem_append.1 hx with h | h
        · exact Or.inl h
        · rcases ih _ x h with h' | h'
          · exact Or.inl h'
          · exact Or.inr (List.mem_of_mem_drop h')
      · rcases List.mem_cons.1 hx with h | h
        · exact Or.inr (h ▸ List.mem_cons_self c rest)
        · rcases ih rest x h with h' | h'
          · exact Or.inl h'
          · exact Or.inr (List.mem_cons_of_mem c h')

lemma mem_replaceAll (old new l : List Nat) :
    ∀ x ∈ replaceAll old new l, x ∈ new ∨ x ∈ l :=
  mem_replaceAllFuel old new l.length l

lemma replaceAllFuel_of_not_substring (old new : List Nat) :
    ∀ (fuel : Nat) (l : List Nat), isSubstring old l = false →
      replaceAllFuel old new fuel l = l := by
  intro fuel
  induction fuel with
  | zero => intro l _; cases l <;> rfl
  | succ n ih =>
    intro l h
    cases l with
    | nil => rfl
    | cons c rest =>
      have h' : (isPrefixOfL old (c :: rest) || isSubstring old rest) = false := h
      rw [Bool.or_eq_false_iff] at h'
      rw [replaceAllFuel_succ_cons, if_neg, ih rest h'.2]
      rintro ⟨-, hp⟩
      rw [h'.1] at hp
      exact Bool.false_ne_true hp

lemma replaceAll_of_not_substring (old new l : List Nat)
    (h : isSubstring old l = false) : replaceAll old new l = l :=
  replaceAllFuel_of_not_substring old new l.length l h

lemma foldl_replace_no_match :
    ∀ (table : List (List Nat × List Nat)) (l : List Nat),
      (∀ p ∈ table, isSubstring p.1 l = false) →
      table.foldl (fun result p => replaceAll p.1 p.2 result) l = l := by
  intro table
  induction table with
  | nil => intro l _; rfl
  | cons p ps ih =>
    intro l h
    have h1 : replaceAll p.1 p.2 l = l :=
      replaceAll_of_not_substring _ _ _ (h p (List.mem_cons_self _ _))
    simp only [List.foldl_cons, h1]
    exact ih l (fun q hq => h q (List.mem_cons_of_mem _ hq))

lemma mem_foldl_replace :
    ∀ (table : List (List Nat × List Nat)) (l : List Nat) (x : Nat),
      x ∈ table.foldl (fun result p => replaceAll p.1 p.2 result) l →
      x ∈ l ∨ ∃ p ∈ table, x ∈ p.2 := by
  intro table
  induction table with
  | nil => intro l x hx; exact Or.inl hx
  | cons p ps ih =>
    intro l x hx
    simp only [List.foldl_cons] at hx
    rcases ih _ x hx with h | h
    · rcases mem_replaceAll _ _ _ x h with h' | h'
      · exact Or.inr ⟨p, List.mem_cons_self _ _, h'⟩
      · exact Or.inl h'
    · rcases h with ⟨q, hq, hx2⟩
      exact Or.inr ⟨q, List.mem_cons_of_mem _ hq, hx2⟩

/-- Every replacement string of the table is fixed by lower-casing. -/
lemma table_replacements_lower : ∀ p ∈ translations, ∀ x ∈ p.2, asciiLower x = x := by
  decide

lemma lower_fixed_foldl (text : List Nat) :
    ∀ x ∈ translations.foldl (fun result p => replaceAll p.1 p.2 result) (text.map asciiLower),
      asciiLower x = x := by
  intro x hx
  rcases mem_foldl_replace translations _ x hx with h | ⟨p, hp, hx2⟩
  · rcases List.mem_map.1 h with ⟨y, -, rfl⟩
    exact asciiLower_idem y
  · exact table_replacements_lower p hp x hx2

lemma pyCapitalize_eq_capitalizeFirst (l : List Nat) (h : ∀ x ∈ l, asciiLower x = x) :
    pyCapitalize l = capitalizeFirst l := by
  cases l with
  | nil => rfl
  | cons c rest =>
    simp only [pyCapitalize, capitalizeFirst]
    congr 1
    calc rest.map asciiLower
        = rest.map id := List.map_congr_left (fun x hx => h x (List.mem_cons_of_mem _ hx))
      _ = rest := List.map_id rest

lemma map_asciiLower_pyCapitalize (l : List Nat) :
    (pyCapitalize (l.map asciiLower)).map asciiLower = l.map asciiLower := by
  cases l with
  | nil => rfl
  | cons c rest =>
    simp only [List.map_cons, pyCapitalize, List.map_map]
    rw [asciiLower_asciiUpper, asciiLower_idem]
    congr 1
    refine List.map_congr_left (fun x _ => ?_)
    simp only [Function.comp_apply, asciiLower_idem]

/-! ### Claim theorems: classification and translator -/

/-- C2: every byte-range pixel triple is assigned exactly one of the six
buckets, with the rules evaluated in the precedence order
red, green, blue, white, black, mixed; in particular a bright near-white
pixel whose red channel strictly dominates is classified red, not white. -/
theorem c2_classification (r g b : Nat) (hr : r ≤ 255) (hg : g ≤ 255) (hb : b ≤ 255) :
    classifyPixel (r, g, b) ∈
      ([.red, .green, .blue, .white, .black, .mixed] : List ColorBucket) ∧
    (r > g ∧ r > b → classifyPixel (r, g, b) = .red) ∧
    (¬(r > g ∧ r > b) → g > r ∧ g > b → classifyPixel (r, g, b) = .green) ∧
    (¬(r > g ∧ r > b) → ¬(g > r ∧ g > b) → b > r ∧ b > g →
      classifyPixel (r, g, b) = .blue) ∧
    (¬(r > g ∧ r > b) → ¬(g > r ∧ g > b) → ¬(b > r ∧ b > g) →
      r > 200 ∧ g > 200 ∧ b > 200 → classifyPixel (r, g, b) = .white) ∧
    (¬(r > g ∧ r > b) → ¬(g > r ∧ g > b) → ¬(b > r ∧ b > g) →
      ¬(r > 200 ∧ g > 200 ∧ b > 200) → r < 50 ∧ g < 50 ∧ b < 50 →
      classifyPixel (r, g, b) = .black) ∧
    (¬(r > g ∧ r > b) → ¬(g > r ∧ g > b) → ¬(b > r ∧ b > g) →
      ¬(r > 200 ∧ g > 200 ∧ b > 200) → ¬(r < 50 ∧ g < 50 ∧ b < 50) →
      classifyPixel (r, g, b) = .mixed) ∧
    (r > 200 ∧ g > 200 ∧ b > 200 → r > g ∧ r > b → classifyPixel (r, g, b) = .red) := by
  constructor
  · cases h : classifyPixel (r, g, b) <;> simp
  refine ⟨?_, ?_, ?_, ?_, ?_, ?_, ?_⟩ <;>
    (intros; simp only [classifyPixel]; split_ifs <;> tauto)

/-- Witness for C2 at the near-white red-dominant pixel (255, 250, 250). -/
theorem c2_witness : classifyPixel (255, 250, 250) = ColorBucket.red :=
  (c2_classification 255 250 250 (by decide) (by decide) (by decide)).2.1
    ⟨by decide, by decide⟩

/-- C4: the translator is invoked exactly when the requested language is fr
(any other code passes the English text through unchanged), and its output is
the lower-cased input run through the substitution table in order with the
first character of the result capitalized. -/
theorem c4_translator (language : String) (text : List Nat) :
    (language ≠ "fr" → apply_language language text = text) ∧
    apply_language "fr" text = translateClaim text := by
  constructor
  · intro h
    unfold apply_language
    have hb : (language == "fr") = false := beq_eq_false_iff_ne.2 h
    rw [hb, if_neg Bool.false_ne_true]
  · unfold apply_language
    have hb : ("fr" == "fr") = true := rfl
    rw [hb, if_pos rfl]
    unfold translate_to_french translateClaim
    exact pyCapitalize_eq_capitalizeFirst _ (lower_fixed_foldl text)

/-- Witness for C4 at language en and the text dog. -/
theorem c4_witness :
    apply_language "en" (str "dog") = str "dog" ∧
    apply_language "fr" (str "dog") = translateClaim (str "dog") :=
  ⟨(c4_translator "en" (str "dog")).1 (by decide), (c4_translator "en" (str "dog")).2⟩

/-- C6: caption generation invokes the model with no prompt, a 50-token
bound and beam width 3 at detail level normal, and with the prompt
"a photography of", a 100-token bound and beam width 5 at detail level
detailed. -/
theorem c6_parameters (model : GenCall → List Nat) (language : String) :
    generate_description model language "normal" =
      apply_language language
        (model { prompt := none, max_length := 50, num_beams := some 3 }) ∧
    generate_description model language "detailed" =
      apply_language language
        (model { prompt := some (str "a photography of"), max_length := 100,
                 num_beams := some 5 }) :=
  ⟨rfl, rfl⟩

/-- C8 counterexample: on the input bB (whose lower-casing matches no table
pattern) the translator's output Bb is not the input with its first character
capitalized (which would be BB), because Python's capitalize also lower-cases
the rest of the string. -/
theorem c8_counterexample :
    tableMatches ((str "bB").map asciiLower) = false ∧
    translate_to_french (str "bB") ≠ capitalizeFirst (str "bB") := by
  constructor
  · decide
  · decide

/-- C8 as amended: on inputs whose lower-cased form matches no table pattern,
the output is the lower-cased input with its first character capitalized, and
translating such an input is idempotent. -/
theorem c8_idempotent (text : List Nat)
    (h : tableMatches (text.map asciiLower) = false) :
    translate_to_french text = pyCapitalize (text.map asciiLower) ∧
    translate_to_french (translate_to_french text) = translate_to_french text := by
  have hAll : ∀ p ∈ translations, isSubstring p.1 (text.map asciiLower) = false := by
    intro p hp
    have := (List.any_eq_false.1 h) p hp
    simpa using this
  have h1 : translate_to_french text = pyCapitalize (text.map asciiLower) := by
    unfold translate_to_french
    rw [foldl_replace_no_match _ _ hAll]
  refine ⟨h1, ?_⟩
  rw [h1]
  unfold translate_to_french
  rw [map_asciiLower_pyCapitalize, foldl_replace_no_match _ _ hAll]

/-- Witness for C8 at the input bb. -/
theorem c8_witness :
    tableMatches ((str "bb").map asciiLower) = false ∧
    translate_to_french (translate_to_french (str "bb")) = translate_to_french (str "bb") :=
  ⟨by decide, (c8_idempotent (str "bb") (by decide)).2⟩

/-- C10: the translator's output has no ASCII uppercase letter anywhere after
the first character. -/
theorem c10_no_upper_tail (text : List Nat) :
    ∀ c ∈ (translate_to_french text).drop 1, ¬(65 ≤ c ∧ c ≤ 90) := by
  intro c hc
  unfold translate_to_french at hc
  cases hm : translations.foldl (fun result p => replaceAll p.1 p.2 result)
      (text.map asciiLower) with
  | nil => rw [hm] at hc; exact absurd hc (List.not_mem_nil c)
  | cons d rest =>
    rw [hm] at hc
    have hc' : c ∈ rest.map asciiLower := hc
    rcases List.mem_map.1 hc' with ⟨y, -, rfl⟩
    exact asciiLower_not_upper y

/-- Witness for C10 at the input bB. -/
theorem c10_witness :
    (98 ∈ (translate_to_french (str "bB")).drop 1) ∧ ¬(65 ≤ 98 ∧ 98 ≤ 90) :=
  ⟨by decide, c10_no_upper_tail (str "bB") 98 (by decide)⟩

/-! ### Color-analysis lemmas -/

lemma countBucket_append (c : ColorBucket) (l₁ l₂ : List ColorBucket) :
    countBucket c (l₁ ++ l₂) = countBucket c l₁ + countBucket c l₂ := by
  induction l₁ with
  | nil => simp [countBucket]
  | cons b rest ih =>
    show (if b = c then 1 else 0) + countBucket c (rest ++ l₂) =
      ((if b = c then 1 else 0) + countBucket c rest) + countBucket c l₂
    rw [ih]
    omega

lemma countBucket_singleton (c a : ColorBucket) :
    countBucket c [a] = if a = c then 1 else 0 := by
  simp [countBucket]

lemma countBucket_eq_zero {c : ColorBucket} {l : List ColorBucket} (h : c ∉ l) :
    countBucket c l = 0 := by
  induction l with
  | nil => rfl
  | cons b rest ih =>
    have hb : ¬b = c := fun he => h (he ▸ List.mem_cons_self b rest)
    simp only [countBucket, if_neg hb, Nat.zero_add]
    exact ih (fun hm => h (List.mem_cons_of_mem b hm))

lemma firstIdx_append_left {c : ColorBucket} {l₁ : List ColorBucket} (h : c ∈ l₁)
    (l₂ : List ColorBucket) : firstIdx c (l₁ ++ l₂) = firstIdx c l₁ := by
  induction l₁ with
  | nil => exact absurd h (List.not_mem_nil c)
  | cons b rest ih =>
    by_cases hb : b = c
    · simp [firstIdx, hb]
    · have hc : c ∈ rest := by
        rcases List.mem_cons.1 h with h' | h'
        · exact absurd h'.symm hb
        · exact h'
      simp [firstIdx, hb, ih hc]

lemma firstIdx_append_right {c : ColorBucket} {l₁ : List ColorBucket} (h : c ∉ l₁)
    (l₂ : List ColorBucket) : firstIdx c (l₁ ++ l₂) = l₁.length + firstIdx c l₂ := by
  induction l₁ with
  | nil => simp
  | cons b rest ih =>
    have hb : ¬b = c := fun he => h (he ▸ List.mem_cons_self b rest)
    have hc : c ∉ rest := fun hm => h (List.mem_cons_of_mem b hm)
    show (if b = c then 0 else firstIdx c (rest ++ l₂) + 1) = (b :: rest).length + firstIdx c l₂
    rw [if_neg hb, ih hc, List.length_cons]
    omega

lemma firstIdx_lt_length {c : ColorBucket} {l : List ColorBucket} (h : c ∈ l) :
    firstIdx c l < l.length := by
  induction l with
  | nil => exact absurd h (List.not_mem_nil c)
  | cons b rest ih =>
    by_cases hb : b = c
    · simp [firstIdx, hb]
    · have hc : c ∈ rest := by
        rcases List.mem_cons.1 h with h' | h'
        · exact absurd h'.symm hb
        · exact h'
      have := ih hc
      simp only [firstIdx, if_neg hb, List.length_cons]
      omega

lemma mem_insertByCountDesc {x y : ColorCount} :
    ∀ {l : List ColorCount}, y ∈ insertByCountDesc x l ↔ y = x ∨ y ∈ l := by
  intro l
  induction l with
  | nil => simp [insertByCountDesc]
  | cons z zs ih =>
    simp only [insertByCountDesc]
    split_ifs with hlt
    · rw [List.mem_cons, ih, List.mem_cons]
      tauto
    · rw [List.mem_cons, List.mem_cons]

lemma mem_sortByCountDesc {y : ColorCount} :
    ∀ {l : List ColorCount}, y ∈ sortByCountDesc l ↔ y ∈ l := by
  intro l
  induction l with
  | nil => simp [sortByCountDesc]
  | cons x xs ih =>
    simp only [sortByCountDesc]
    rw [mem_insertByCountDesc, ih, List.mem_cons]

lemma length_insertByCountDesc (x : ColorCount) :
    ∀ l : List ColorCount, (insertByCountDesc x l).length = l.length + 1 := by
  intro l
  induction l with
  | nil => rfl
  | cons z zs ih =>
    simp only [insertByCountDesc]
    split_ifs
    · simp [ih]
    · simp

lemma length_sortByCountDesc :
    ∀ l : List ColorCount, (sortByCountDesc l).length = l.length := by
  intro l
  induction l with
  | nil => rfl
  | cons x xs ih => simp [sortByCountDesc, length_insertByCountDesc, ih]

/-- The order in which the stable descending sort leaves entries: strictly
larger counts first; at equal counts a chosen relation S (here:
first-occurrence order) persists. -/
def OrdS (S : ColorCount → ColorCount → Prop) (x y : ColorCount) : Prop :=
  y.2 < x.2 ∨ (x.2 = y.2 ∧ S x y)

lemma pairwise_insertByCountDesc (S : ColorCount → ColorCount → Prop) {x : ColorCount} :
    ∀ {l : List ColorCount}, l.Pairwise (OrdS S) → (∀ y ∈ l, S x y) →
      (insertByCountDesc x l).Pairwise (OrdS S) := by
  intro l
  induction l with
  | nil => intro _ _; simp [insertByCountDesc]
  | cons y ys ih =>
    intro hp hS
    rw [List.pairwise_cons] at hp
    simp only [insertByCountDesc]
    split_ifs with hlt
    · rw [List.pairwise_cons]
      constructor
      · intro z hz
        rcases mem_insertByCountDesc.1 hz with rfl | hz'
        · exact Or.inl hlt
        · exact hp.1 z hz'
      · exact ih hp.2 (fun z hz => hS z (List.mem_cons_of_mem _ hz))
    · rw [List.pairwise_cons]
      constructor
      · intro z hz
        rcases List.mem_cons.1 hz with rfl | hz'
        · rcases Nat.lt_or_ge z.2 x.2 with h | h
          · exact Or.inl h
          · exact Or.inr ⟨Nat.le_antisymm h (Nat.le_of_not_lt hlt),
              hS z (List.mem_cons_self _ _)⟩
        · rcases hp.1 z hz' with h | ⟨heq, -⟩
          · exact Or.inl (Nat.lt_of_lt_of_le h (Nat.le_of_not_lt hlt))
          · rcases Nat.lt_or_ge z.2 x.2 with h2 | h2
            · exact Or.inl h2
            · have hyx : y.2 ≤ x.2 := Nat.le_of_not_lt hlt
              have hxz : x.2 = z.2 := by omega
              exact Or.inr ⟨hxz, hS z (List.mem_cons_of_mem _ hz')⟩
      · rw [List.pairwise_cons]
        exact ⟨hp.1, hp.2⟩

lemma pairwise_sortByCountDesc (S : ColorCount → ColorCount → Prop) :
    ∀ {l : List ColorCount}, l.Pairwise S → (sortByCountDesc l).Pairwise (OrdS S) := by
  intro l
  induction l with
  | nil => intro _; simp [sortByCountDesc]
  | cons x xs ih =>
    intro hp
    rw [List.pairwise_cons] at hp
    simp only [sortByCountDesc]
    exact pairwise_insertByCountDesc S (ih hp.2)
      (fun y hy => hp.1 y (mem_sortByCountDesc.1 hy))

lemma tally_append_singleton (bs : List ColorBucket) (c : ColorBucket) :
    tally (bs ++ [c]) = bump (tally bs) c := by
  unfold tally
  rw [List.foldl_append]
  rfl

/-- The count dictionary after the loop: every entry's key occurred in the
scan and its value is that key's scan count; every scanned bucket is a key;
and the keys stand in first-occurrence order. -/
lemma tally_spec (bs : List ColorBucket) :
    (∀ p ∈ tally bs, p.1 ∈ bs ∧ p.2 = countBucket p.1 bs) ∧
    (∀ c ∈ bs, c ∈ (tally bs).map Prod.fst) ∧
    (tally bs).Pairwise (fun p q => firstIdx p.1 bs < firstIdx q.1 bs) := by
  induction bs using List.reverseRecOn with
  | nil => refine ⟨?_, ?_, ?_⟩ <;> simp [tally]
  | append_singleton l a ih =>
    obtain ⟨ih1, ih2, ih3⟩ := ih
    rw [tally_append_singleton]
    by_cases hmem : a ∈ l
    · -- a is already a key: bump takes the increment branch
      have hkey : a ∈ (tally l).map Prod.fst := ih2 a hmem
      rcases List.mem_map.1 hkey with ⟨p₀, hp₀, hp₀a⟩
      have hany : ((tally l).any fun p => decide (p.1 = a)) = true := by
        simp only [List.any_eq_true, decide_eq_true_eq]
        exact ⟨p₀, hp₀, hp₀a⟩
      have hbump : bump (tally l) a =
          (tally l).map (fun p => if p.1 = a then (p.1, p.2 + 1) else p) := by
        unfold bump
        rw [if_pos hany]
      rw [hbump]
      have hfst : ∀ p : ColorCount, ((fun p : ColorCount =>
          if p.1 = a then (p.1, p.2 + 1) else p) p).1 = p.1 := by
        intro p
        by_cases h : p.1 = a <;> simp [h]
      refine ⟨?_, ?_, ?_⟩
      · intro q hq
        rcases List.mem_map.1 hq with ⟨p, hp, rfl⟩
        obtain ⟨hp1, hp2⟩ := ih1 p hp
        by_cases h : p.1 = a
        · rw [if_pos h]
          refine ⟨List.mem_append_left _ hp1, ?_⟩
          rw [show ((p.1, p.2 + 1) : ColorCount).1 = p.1 from rfl,
            show ((p.1, p.2 + 1) : ColorCount).2 = p.2 + 1 from rfl,
            countBucket_append, countBucket_singleton, h, if_pos rfl, hp2, h]
        · rw [if_neg h]
          refine ⟨List.mem_append_left _ hp1, ?_⟩
          rw [countBucket_append, countBucket_singleton,
            if_neg (fun he => h he.symm), hp2]
          omega
      · intro c hc
        rcases List.mem_append.1 hc with h | h
        · rcases List.mem_map.1 (ih2 c h) with ⟨p, hp, hpa⟩
          exact List.mem_map.2 ⟨_, List.mem_map_of_mem _ hp, by rw [hfst p, hpa]⟩
        · have hc' : c = a := by simpa using h
          subst hc'
          exact List.mem_map.2 ⟨_, List.mem_map_of_mem _ hp₀, by rw [hfst p₀, hp₀a]⟩
      · rw [List.pairwise_map]
        refine ih3.imp_of_mem ?_
        intro p q hp hq hlt
        rw [hfst p, hfst q,
          firstIdx_append_left (ih1 p hp).1, firstIdx_append_left (ih1 q hq).1]
        exact hlt
    · -- a is a new key: bump appends (a, 1)
      have hnkey : ∀ p ∈ tally l, p.1 ≠ a := by
        intro p hp heq
        exact hmem (heq ▸ (ih1 p hp).1)
      have hany : ((tally l).any fun p => decide (p.1 = a)) = false := by
        simp only [List.any_eq_false, decide_eq_true_eq]
        exact hnkey
      have hbump : bump (tally l) a = tally l ++ [(a, 1)] := by
        unfold bump
        rw [if_neg (by rw [hany]; exact Bool.false_ne_true)]
      rw [hbump]
      refine ⟨?_, ?_, ?_⟩
      · intro q hq
        rcases List.mem_append.1 hq with h | h
        · obtain ⟨h1, h2⟩ := ih1 q h
          refine ⟨List.mem_append_left _ h1, ?_⟩
          rw [countBucket_append, countBucket_singleton,
            if_neg (fun he => hnkey q h he.symm), h2]
          omega
        · have hq' : q = (a, 1) := by simpa using h
          subst hq'
          refine ⟨List.mem_append_right _ (by simp), ?_⟩
          rw [show ((a, 1) : ColorCount).2 = 1 from rfl,
            show ((a, 1) : ColorCount).1 = a from rfl,
            countBucket_append, countBucket_singleton, if_pos rfl,
            countBucket_eq_zero hmem]
      · intro c hc
        rcases List.mem_append.1 hc with h | h
        · rcases List.mem_map.1 (ih2 c h) with ⟨p, hp, hpa⟩
          exact List.mem_map.2 ⟨p, List.mem_append_left _ hp, hpa⟩
        · have hc' : c = a := by simpa using h
          exact List.mem_map.2 ⟨(a, 1), List.mem_append_right _ (by simp), hc'.symm⟩
      · rw [List.pairwise_append]
        refine ⟨?_, by simp, ?_⟩
        · refine ih3.imp_of_mem ?_
          intro p q hp hq hlt
          rw [firstIdx_append_left (ih1 p hp).1, firstIdx_append_left (ih1 q hq).1]
          exact hlt
        · intro p hp q hq
          have hq' : q = (a, 1) := by simpa using hq
          subst hq'
          rw [show ((a, 1) : ColorCount).1 = a from rfl,
            firstIdx_append_left (ih1 p hp).1, firstIdx_append_right hmem]
          have := firstIdx_lt_length (ih1 p hp).1
          simp only [firstIdx]
          omega

/-! ### Claim theorems: color analysis -/

/-- C1: the colors list has length at most 3, draws from the six buckets,
is ordered by strictly descending pixel count with ties broken by the bucket
first encountered in the row-major scan, and omits only buckets whose count
does not exceed any reported one. -/
theorem c1_colors_invariant (pixels : List Pixel) :
    (analyze_colors pixels).length ≤ 3 ∧
    (∀ c ∈ analyze_colors pixels,
      c ∈ ([.red, .green, .blue, .white, .black, .mixed] : List ColorBucket)) ∧
    (analyze_colors pixels).Pairwise (fun a b =>
      countBucket b (pixels.map classifyPixel) < countBucket a (pixels.map classifyPixel) ∨
      (countBucket a (pixels.map classifyPixel) = countBucket b (pixels.map classifyPixel) ∧
       firstIdx a (pixels.map classifyPixel) < firstIdx b (pixels.map classifyPixel))) ∧
    (∀ c, c ∉ analyze_colors pixels → ∀ a ∈ analyze_colors pixels,
      countBucket c (pixels.map classifyPixel) ≤ countBucket a (pixels.map classifyPixel)) := by
  set bs := pixels.map classifyPixel with hbs
  obtain ⟨t1, t2, t3⟩ := tally_spec bs
  have hsorted := pairwise_sortByCountDesc (fun p q => firstIdx p.1 bs < firstIdx q.1 bs) t3
  have hout : analyze_colors pixels =
      ((sortByCountDesc (tally bs)).take 3).map Prod.fst := rfl
  have hmem_take : ∀ p ∈ (sortByCountDesc (tally bs)).take 3, p ∈ tally bs := by
    intro p hp
    exact mem_sortByCountDesc.1 ((List.take_sublist 3 _).subset hp)
  refine ⟨?_, ?_, ?_, ?_⟩
  · rw [hout, List.length_map, List.length_take]
    exact min_le_left _ _
  · intro c _
    cases c <;> simp
  · rw [hout, List.pairwise_map]
    refine (hsorted.sublist (List.take_sublist 3 _)).imp_of_mem ?_
    intro p q hp hq hOrd
    obtain ⟨-, hp2⟩ := t1 p (hmem_take p hp)
    obtain ⟨-, hq2⟩ := t1 q (hmem_take q hq)
    rcases hOrd with h | ⟨heq, hS⟩
    · exact Or.inl (by rw [← hp2, ← hq2]; exact h)
    · exact Or.inr ⟨by rw [← hp2, ← hq2]; exact heq, hS⟩
  · intro c hc a ha
    by_cases hcl : c ∈ bs
    · rcases List.mem_map.1 (t2 c hcl) with ⟨p, hp, hpa⟩
      have hps : p ∈ sortByCountDesc (tally bs) := mem_sortByCountDesc.2 hp
      have hsplit := List.take_append_drop 3 (sortByCountDesc (tally bs))
      have hp_where : p ∈ (sortByCountDesc (tally bs)).take 3 ∨
          p ∈ (sortByCountDesc (tally bs)).drop 3 := by
        rw [← hsplit] at hps
        exact List.mem_append.1 hps
      rcases hp_where with h | h
      · exact absurd (hout ▸ List.mem_map.2 ⟨p, h, hpa⟩) hc
      · rcases List.mem_map.1 (hout ▸ ha) with ⟨q, hq, hqa⟩
        have hcross : ∀ u ∈ (sortByCountDesc (tally bs)).take 3,
            ∀ v ∈ (sortByCountDesc (tally bs)).drop 3,
              OrdS (fun x y => firstIdx x.1 bs < firstIdx y.1 bs) u v := by
          have h' := hsorted
          rw [← hsplit, List.pairwise_append] at h'
          exact h'.2.2
        have hOrd := hcross q hq p h
        obtain ⟨-, hq2⟩ := t1 q (hmem_take q hq)
        obtain ⟨-, hp2⟩ := t1 p hp
        rw [← hpa, ← hqa, ← hp2, ← hq2]
        rcases hOrd with hlt | ⟨heq, -⟩
        · exact Nat.le_of_lt hlt
        · omega
    · rw [countBucket_eq_zero hcl]
      exact Nat.zero_le _

/-- Witness for C1 on a single red pixel. -/
theorem c1_witness :
    ColorBucket.blue ∉ analyze_colors [((255 : Nat), 0, 0)] ∧
    countBucket ColorBucket.blue (([((255 : Nat), 0, 0)] : List Pixel).map classifyPixel) ≤
      countBucket ColorBucket.red (([((255 : Nat), 0, 0)] : List Pixel).map classifyPixel) :=
  ⟨by decide, (c1_colors_invariant [((255 : Nat), 0, 0)]).2.2.2 .blue (by decide) .red (by decide)⟩

lemma bump_singleton_self (c : ColorBucket) (k : Nat) : bump [(c, k)] c = [(c, k + 1)] := by
  unfold bump
  rw [if_pos (by simp)]
  simp

lemma foldl_bump_replicate (c : ColorBucket) :
    ∀ (m k : Nat), List.foldl bump [(c, k)] (List.replicate m c) = [(c, k + m)] := by
  intro m
  induction m with
  | zero => intro k; simp
  | succ n ih =>
    intro k
    rw [List.replicate_succ, List.foldl_cons, bump_singleton_self, ih (k + 1)]
    have : k + 1 + n = k + (n + 1) := by omega
    rw [this]

lemma tally_replicate (c : ColorBucket) (m : Nat) :
    tally (List.replicate (m + 1) c) = [(c, m + 1)] := by
  unfold tally
  rw [List.replicate_succ, List.foldl_cons]
  have hb : bump [] c = [(c, 1)] := rfl
  rw [hb, foldl_bump_replicate]
  have : 1 + m = m + 1 := by omega
  rw [this]

/-- C7: a 150x150 image every pixel of which is (255, 0, 0) yields exactly
the one-element colors list [red]. -/
theorem c7_uniform_red :
    analyze_colors (List.replicate 22500 ((255, 0, 0) : Pixel)) = [ColorBucket.red] := by
  unfold analyze_colors
  rw [List.map_replicate]
  have hc : classifyPixel (255, 0, 0) = ColorBucket.red := rfl
  rw [hc]
  have h22500 : (22500 : Nat) = 22499 + 1 := rfl
  rw [h22500, tally_replicate]
  rfl

lemma length_bump_ge (counts : List ColorCount) (c : ColorBucket) :
    counts.length ≤ (bump counts c).length := by
  unfold bump
  split_ifs
  · rw [List.length_map]
  · rw [List.length_append]
    simp

lemma length_foldl_bump :
    ∀ (l : List ColorBucket) (acc : List ColorCount),
      acc.length ≤ (List.foldl bump acc l).length := by
  intro l
  induction l with
  | nil => intro acc; exact Nat.le_refl _
  | cons c rest ih =>
    intro acc
    exact Nat.le_trans (length_bump_ge acc c) (ih (bump acc c))

/-- C9: on a nonempty pixel scan the colors list is never empty: its length
is between 1 and 3. -/
theorem c9_colors_nonempty (pixels : List Pixel) (h : pixels ≠ []) :
    1 ≤ (analyze_colors pixels).length ∧ (analyze_colors pixels).length ≤ 3 := by
  obtain ⟨p, ps, rfl⟩ := List.exists_cons_of_ne_nil h
  have h1 : 1 ≤ (tally ((p :: ps).map classifyPixel)).length := by
    have hb : (bump [] (classifyPixel p)).length = 1 := rfl
    calc 1 = (bump [] (classifyPixel p)).length := hb.symm
      _ ≤ _ := length_foldl_bump _ _
  have hlen : (analyze_colors (p :: ps)).length =
      min 3 (tally ((p :: ps).map classifyPixel)).length := by
    unfold analyze_colors
    rw [List.length_map, List.length_take, length_sortByCountDesc]
  constructor
  · rw [hlen]
    exact le_min (by omega) h1
  · rw [hlen]
    exact min_le_left _ _

/-- Witness for C9 on a single black pixel. -/
theorem c9_witness :
    ([((0 : Nat), 0, 0)] : List Pixel) ≠ [] ∧
    (1 ≤ (analyze_colors [((0 : Nat), 0, 0)]).length ∧
      (analyze_colors [((0 : Nat), 0, 0)]).length ≤ 3) :=
  ⟨by decide, c9_colors_nonempty [((0 : Nat), 0, 0)] (by decide)⟩

/-! ### Claim theorems: tag extraction and endpoint -/

/-- C3 counterexample: when no vocabulary entry matches, detect_objects
returns the French sentinel, which is neither a sublist of the vocabulary
nor the English sentinel the claim names. -/
theorem c3_counterexample :
    detect_objects (fun _ => []) = ["objet non identifié"] ∧
    ¬ List.Sublist (detect_objects (fun _ => [])) common_objects ∧
    detect_objects (fun _ => []) ≠ ["unidentified object"] := by
  refine ⟨by decide, ?_, by decide⟩
  intro h
  rw [show detect_objects (fun _ => []) = ["objet non identifié"] from by decide] at h
  exact absurd (h.subset (List.mem_singleton_self _)) (by decide)

/-- C3 as amended: the tag list is either a non-empty subsequence of the
vocabulary in vocabulary order, an entry included exactly when it occurs in
the lower-cased model text, or the single French sentinel tag
(objet non identifié) when no entry matches. -/
theorem c3_tags (model : GenCall → List Nat) :
    detect_objects model ≠ [] ∧
    ((List.Sublist (detect_objects model) common_objects ∧
      ∀ obj ∈ common_objects,
        (obj ∈ detect_objects model ↔
          isSubstring (str obj) ((model objectsCall).map asciiLower) = true)) ∨
     (detect_objects model = ["objet non identifié"] ∧
      ∀ obj ∈ common_objects,
        isSubstring (str obj) ((model objectsCall).map asciiLower) = false)) := by
  simp only [detect_objects]
  by_cases hd : common_objects.filter
      (fun obj => isSubstring (str obj) ((model objectsCall).map asciiLower)) = []
  · rw [if_pos hd]
    refine ⟨by simp, Or.inr ⟨rfl, ?_⟩⟩
    intro obj hobj
    have := List.filter_eq_nil.1 hd obj hobj
    simpa using this
  · rw [if_neg hd]
    refine ⟨hd, Or.inl ⟨List.filter_sublist _, ?_⟩⟩
    intro obj hobj
    rw [List.mem_filter]
    constructor
    · intro h'
      exact h'.2
    · intro h'
      exact ⟨hobj, h'⟩

/-- Witness for C3 on a model text naming a person and a car. -/
theorem c3_witness : detect_objects (fun _ => str "a person with a car") ≠ [] :=
  (c3_tags (fun _ => str "a person with a car")).1

/-- C5 counterexample: an invalid base64 payload is rejected through the
catch-all handler with HTTP status 500, a server error, not the client-error
result the claim states. -/
theorem c5_counterexample :
    analyze_image (fun _ => (Except.error "Invalid base64-encoded string" : Except String Unit))
      (fun _ => (Except.ok () : Except String Unit))
      (fun _ _ => ([] : List Nat)) (fun _ => ([] : List Pixel))
      (fun _ => ((0, 0) : Nat × Nat))
      { image := some "%%%", language := none, detail_level := none } =
      .failure "Invalid base64-encoded string" 500 ∧
    isClientError 500 = false :=
  ⟨rfl, rfl⟩

/-- C5 as amended: a missing image field is rejected with the 400 client
error; a failing base64 decode or image decode is rejected with a 500 server
error; in every such case the response is produced before any model work and
is independent of the captioning model. -/
theorem c5_input_errors {Bytes Img : Type}
    (b64decode : String → Except String Bytes)
    (image_open : Bytes → Except String Img)
    (model : Img → GenCall → List Nat)
    (resized_pixels : Img → List Pixel)
    (image_size : Img → Nat × Nat)
    (req : AnalyzeRequest) :
    (req.image = none →
      analyze_image b64decode image_open model resized_pixels image_size req =
        .failure "Aucune image fournie" 400 ∧
      isClientError 400 = true) ∧
    (∀ b64 e, req.image = some b64 → b64decode b64 = .error e →
      analyze_image b64decode image_open model resized_pixels image_size req =
        .failure e 500 ∧ isClientError 500 = false) ∧
    (∀ b64 bytes e, req.image = some b64 → b64decode b64 = .ok bytes →
      image_open bytes = .error e →
      analyze_image b64decode image_open model resized_pixels image_size req =
        .failure e 500) ∧
    (∀ model₂ : Img → GenCall → List Nat,
      (req.image = none ∨
       (∃ b64 e, req.image = some b64 ∧ b64decode b64 = .error e) ∨
       (∃ b64 bytes e, req.image = some b64 ∧ b64decode b64 = .ok bytes ∧
         image_open bytes = .error e)) →
      analyze_image b64decode image_open model resized_pixels image_size req =
        analyze_image b64decode image_open model₂ resized_pixels image_size req) := by
  refine ⟨?_, ?_, ?_, ?_⟩
  · intro h
    exact ⟨by simp only [analyze_image, h], rfl⟩
  · intro b64 e h hb
    exact ⟨by simp only [analyze_image, h, hb], rfl⟩
  · intro b64 bytes e h hb ho
    simp only [analyze_image, h, hb, ho]
  · intro model₂ hcase
    rcases hcase with h | ⟨b64, e, h, hb⟩ | ⟨b64, bytes, e, h, hb, ho⟩
    · simp only [analyze_image, h]
    · simp only [analyze_image, h, hb]
    · simp only [analyze_image, h, hb, ho]

/-- Witness for C5 on a request without an image field. -/
theorem c5_witness :
    analyze_image (fun _ => (Except.ok () : Except String Unit))
      (fun _ => (Except.ok () : Except String Unit))
      (fun _ _ => ([] : List Nat)) (fun _ => ([] : List Pixel))
      (fun _ => ((0, 0) : Nat × Nat))
      { image := none, language := none, detail_level := none } =
      .failure "Aucune image fournie" 400 ∧
    isClientError 400 = true :=
  (c5_input_errors _ _ _ _ _ _).1 rfl
